import Mathlib

/-!
Verification development for the WhatsApp analyzer (src/main.py).
The Python source is shallowly embedded: each pure function of the source
becomes a Lean definition over explicit data.  External effects are made
explicit parameters: the filesystem is a list `fs` of paths that exist on
disk at parse time, and the base directory is a string `bd`.  Python's
`None` becomes `Option`, exceptions become `Except`, and Python truthiness
of optional strings is modelled by `pyTruthyOpt`.
-/

set_option maxRecDepth 10000

namespace WA

/-- ASCII fragment of Python's `\s` character class (str patterns also admit
further Unicode spaces; the inputs of interest here are ASCII-spaced). -/
def isPySpace (c : Char) : Bool :=
  c = ' ' || c = '\t' || c = '\n' || c = '\r' || c = '\x0b' || c = '\x0c'

/-- `span` of a character predicate: maximal matching run and the rest. -/
def spanP (p : Char → Bool) : List Char → List Char × List Char
  | [] => ([], [])
  | c :: rest =>
    if p c then
      let (a, b) := spanP p rest
      (c :: a, b)
    else ([], c :: rest)

/-- Python `str.rstrip("\n")`: remove trailing newline characters. -/
def rstripNL (s : String) : String :=
  ⟨(s.data.reverse.dropWhile (fun c => c = '\n')).reverse⟩

/-- Python `str.strip()` on the ASCII whitespace fragment. -/
def pyStrip (s : String) : String :=
  ⟨((s.data.dropWhile isPySpace).reverse.dropWhile isPySpace).reverse⟩

/-- Python truthiness of a string: `False` exactly on the empty string. -/
def pyTruthyStr (s : String) : Bool :=
  match s.data with
  | [] => false
  | _ :: _ => true

/-- Python truthiness of an optional string (`None` and `""` are falsy). -/
def pyTruthyOpt : Option String → Bool
  | none => false
  | some s => pyTruthyStr s

/-- Digit run to a natural number (the runs are at most 4 digits long). -/
def digitsToNat (l : List Char) : Nat :=
  l.foldl (fun a c => a * 10 + (c.toNat - '0'.toNat)) 0

/-- Split a character list at its first colon: `some (before, after)` with
`before` colon-free, mirroring how `([^:]+):` can only stop at the first
colon of the remaining input. -/
def findColon : List Char → Option (List Char × List Char)
  | [] => none
  | c :: rest =>
    if c = ':' then some ([], rest)
    else (findColon rest).map (fun ab => (c :: ab.1, ab.2))

/-- `[APap]` of the time pattern. -/
def isAP (c : Char) : Bool := c = 'A' || c = 'P' || c = 'a' || c = 'p'

/-- `[Mm]` of the time pattern. -/
def isM (c : Char) : Bool := c = 'M' || c = 'm'

/--
`WHATSAPP_MSG_RE.match(line)` (src/main.py line 36), unfolded into the
deterministic matcher the backtracking engine reduces to on this pattern:

`^(\d{1,2}[./]\d{1,2}[./]\d{2,4}),\s*(\d{1,2}:\d{2}(?::\d{2})?(?:\s?[APap][Mm])?)\s*[-–]\s*([^:]+):\s*(.*)$`

Each `\d{a,b}` is followed by a character no digit can satisfy, so it must
consume a whole maximal digit run of admissible length; the optional
seconds and am/pm groups, when they can match, leave a position where the
skipping alternative immediately fails, so greedy matching is forced; and
`\s*([^:]+):` resolves to: take the first colon, give the whitespace run
back one character if it would otherwise swallow everything before that
colon.  Returns the four capture groups `(date, time, sender, body)`.
The body group `(.*)$` assumes the line has no interior newline, which
holds for lines produced by splitting a file into lines.
-/
def matchHeader (line : String) : Option (String × String × String × String) :=
  let cs := line.data
  let (d1, r1) := spanP Char.isDigit cs
  if d1.length < 1 || 2 < d1.length then none else
  match r1 with
  | s1 :: r2 =>
    if ¬(s1 = '.' ∨ s1 = '/') then none else
    let (d2, r3) := spanP Char.isDigit r2
    if d2.length < 1 || 2 < d2.length then none else
    match r3 with
    | s2 :: r4 =>
      if ¬(s2 = '.' ∨ s2 = '/') then none else
      let (d3, r5) := spanP Char.isDigit r4
      if d3.length < 2 || 4 < d3.length then none else
      match r5 with
      | ',' :: r6 =>
        let dateStr : List Char := d1 ++ [s1] ++ d2 ++ [s2] ++ d3
        let r7 := r6.dropWhile isPySpace
        let (hh, r8) := spanP Char.isDigit r7
        if hh.length < 1 || 2 < hh.length then none else
        match r8 with
        | ':' :: m1 :: m2 :: r10 =>
          if ¬(m1.isDigit ∧ m2.isDigit) then none else
          let sec : List Char × List Char :=
            match r10 with
            | ':' :: a :: b :: rr =>
              if a.isDigit ∧ b.isDigit then ([':', a, b], rr) else ([], r10)
            | _ => ([], r10)
          let ampm : List Char × List Char :=
            match sec.2 with
            | s :: c1 :: c2 :: rr =>
              if isPySpace s ∧ isAP c1 ∧ isM c2 then ([s, c1, c2], rr)
              else if isAP s ∧ isM c1 then ([s, c1], c2 :: rr)
              else ([], sec.2)
            | [c1, c2] => if isAP c1 ∧ isM c2 then ([c1, c2], []) else ([], [c1, c2])
            | other => ([], other)
          let timeStr : List Char := hh ++ [':'] ++ [m1, m2] ++ sec.1 ++ ampm.1
          let r13 := ampm.2.dropWhile isPySpace
          match r13 with
          | dash :: r14 =>
            if ¬(dash = '-' ∨ dash = '–') then none else
            match findColon r14 with
            | none => none
            | some (before, after) =>
              if before = [] then none else
              let w := (spanP isPySpace r14).1.length
              let j := min w (before.length - 1)
              some (⟨dateStr⟩, ⟨timeStr⟩, ⟨before.drop j⟩, ⟨after.dropWhile isPySpace⟩)
          | [] => none
        | _ => none
      | _ => none
    | [] => none
  | [] => none

/-- The recognized audio extensions, in the alternation order of `AUDIO_RE`. -/
def audioExts : List (List Char) :=
  [['o','p','u','s'], ['o','g','g'], ['m','p','3'], ['m','4','a'], ['a','a','c'], ['w','a','v']]

/-- Case-insensitive match of one extension at the front of `cs`; returns the
matched original characters and the rest. -/
def tryExt (ext : List Char) (cs : List Char) : Option (List Char × List Char) :=
  let pre := cs.take ext.length
  if pre.length = ext.length ∧ pre.map Char.toLower = ext then
    some (pre, cs.drop ext.length)
  else none

/-- First extension of `audioExts` matching at the front of `cs`. -/
def extsMatch (cs : List Char) : Option (List Char) :=
  (audioExts.foldr (fun ext acc => (tryExt ext cs).map (·.1) <|> acc) none)

/-- Greedy `\S+\.(?:opus|…)` at a fixed start: the dot position `k` is tried
from largest to smallest (the engine backtracks the greedy `\S+` from the
end of the non-space run), returning the capture `prefixOfLen k ++ '.' ++ ext`. -/
def tryDotAt (cs : List Char) : Nat → Option (List Char)
  | 0 => none
  | k + 1 =>
    (if cs.getD (k + 1) ' ' = '.' then
      (extsMatch (cs.drop (k + 2))).map (fun m => cs.take (k + 1) ++ '.' :: m)
     else none) <|> tryDotAt cs k

/-- `\S+\.(?:opus|…)` anchored at the current position. -/
def audioCore (cs : List Char) : Option (List Char) :=
  let runLen := ((spanP (fun c => ¬ isPySpace c)) cs).1.length
  match runLen with
  | 0 => none
  | n + 1 => tryDotAt cs n

/-- `<?(\S+\.(?:…))>?` at the current position: the optional `<` is consumed
greedily first; `>?` never constrains the match. -/
def audioAt (cs : List Char) : Option (List Char) :=
  match cs with
  | '<' :: rest => audioCore rest <|> audioCore cs
  | _ => audioCore cs

/-- `AUDIO_RE.search(text).group(1)` (src/main.py line 39): leftmost start
position wins, as `re.search` scans positions left to right. -/
def audioSearchL : List Char → Option (List Char)
  | [] => none
  | c :: rest => audioAt (c :: rest) <|> audioSearchL rest

/-- String-level audio filename search, group 1 of `AUDIO_RE`. -/
def audioSearch (s : String) : Option String :=
  (audioSearchL s.data).map (fun l => ⟨l⟩)

/-- Calendar date, compared as Python compares `datetime.date`. -/
structure Date where
  year : Nat
  month : Nat
  day : Nat
deriving DecidableEq, Inhabited

/-- Python `date` ordering (lexicographic on year, month, day). -/
def dateLE (a b : Date) : Bool :=
  a.year < b.year ||
  (a.year = b.year && (a.month < b.month ||
    (a.month = b.month && a.day ≤ b.day)))

/-- Date-and-time value, the embedding of Python `datetime`. -/
structure DateTime where
  year : Nat
  month : Nat
  day : Nat
  hour : Nat
  minute : Nat
  second : Nat
deriving DecidableEq, Inhabited

/-- The calendar date of a `DateTime` (Python `datetime.date()`). -/
def DateTime.date (dt : DateTime) : Date :=
  ⟨dt.year, dt.month, dt.day⟩

/-- Leap year test of the Gregorian calendar. -/
def isLeapB (y : Nat) : Bool :=
  y % 4 = 0 && (y % 100 ≠ 0 || y % 400 = 0)

/-- Days in a month. -/
def daysInMonth (m y : Nat) : Nat :=
  if m = 2 then (if isLeapB y then 29 else 28)
  else if m = 4 ∨ m = 6 ∨ m = 9 ∨ m = 11 then 30
  else 31

/-- Valid day/month pair for a year. -/
def validDM (d m y : Nat) : Bool :=
  1 ≤ m && m ≤ 12 && 1 ≤ d && d ≤ daysInMonth m y

/-- Two-digit years are expanded around the current century. -/
def expandYear (y : Nat) : Nat :=
  if y < 100 then (if 70 ≤ y then 1900 + y else 2000 + y) else y

/-- `D sep M sep Y` digits of the date group, all input consumed. -/
def parseDate3 (cs : List Char) : Option (Nat × Nat × Nat) :=
  let (d1, r1) := spanP Char.isDigit cs
  if d1 = [] then none else
  match r1 with
  | s1 :: r2 =>
    if ¬(s1 = '.' ∨ s1 = '/') then none else
    let (d2, r3) := spanP Char.isDigit r2
    if d2 = [] then none else
    match r3 with
    | s2 :: r4 =>
      if ¬(s2 = '.' ∨ s2 = '/') then none else
      let (d3, r5) := spanP Char.isDigit r4
      if d3 = [] ∨ r5 ≠ [] then none else
      some (digitsToNat d1, digitsToNat d2, digitsToNat d3)
    | [] => none
  | [] => none

/-- `H:MM[:SS][ am/pm]` of the time group; the last component distinguishes
no suffix, an am suffix (`false`) and a pm suffix (`true`). -/
def parseTimeParts (cs : List Char) : Option (Nat × Nat × Nat × Option Bool) :=
  let (hh, r1) := spanP Char.isDigit cs
  if hh = [] then none else
  match r1 with
  | ':' :: m1 :: m2 :: r2 =>
    if ¬(m1.isDigit ∧ m2.isDigit) then none else
    let sec : Nat × List Char :=
      match r2 with
      | ':' :: a :: b :: rr =>
        if a.isDigit ∧ b.isDigit then (digitsToNat [a, b], rr) else (0, r2)
      | _ => (0, r2)
    let rest := sec.2.dropWhile isPySpace
    match rest with
    | [] => some (digitsToNat hh, digitsToNat [m1, m2], sec.1, none)
    | [c1, c2] =>
      if isAP c1 ∧ isM c2 then
        some (digitsToNat hh, digitsToNat [m1, m2], sec.1,
              some (c1 = 'P' ∨ c1 = 'p'))
      else none
    | _ => none
  | _ => none

/--
Modelled from the spec: the external `dateutil` parser invoked as
`dateparser.parse(f"{date_str} {time_str}", dayfirst=True)` at src/main.py
line 59 is a third-party collaborator whose code is not in this repository.
Per the spec, date components are interpreted day-first, with the library's
fallback of swapping day and month when the day-first reading is invalid,
and any failure yields an absent timestamp.  Hour, minute and second are
range-checked; an am/pm suffix forces a 12-hour reading.
-/
def pyParseDT (dateStr timeStr : String) : Option DateTime :=
  match parseDate3 dateStr.data, parseTimeParts timeStr.data with
  | some (a, b, yRaw), some (h, mi, se, ap) =>
    let y := expandYear yRaw
    let dm : Option (Nat × Nat) :=
      if validDM a b y then some (a, b)
      else if validDM b a y then some (b, a)
      else none
    match dm with
    | none => none
    | some (d, m) =>
      if mi ≥ 60 ∨ se ≥ 60 then none else
      match ap with
      | none => if h ≤ 23 then some ⟨y, m, d, h, mi, se⟩ else none
      | some pm =>
        if 1 ≤ h ∧ h ≤ 12 then
          some ⟨y, m, d, h % 12 + (if pm then 12 else 0), mi, se⟩
        else none
  | _, _ => none

/-- The Record data model: the message dict built at src/main.py lines 70-76. -/
structure Message where
  datetime : Option DateTime
  sender : String
  text : String
  audio_file : Option String
  transcript : Option String
deriving DecidableEq, Inhabited

/-- Attachment resolution (src/main.py lines 63-68): search the given text
for an audio filename; when found, join it to the base directory (the
Path `/` operator on POSIX paths) and keep it only if that path is in the
set `fs` of files existing on disk at parse time. -/
def resolveAudio (bd : String) (fs : List String) (text : String) : Option String :=
  match audioSearch text with
  | some f =>
    let candidate := bd ++ "/" ++ f
    if fs.contains candidate then some candidate else none
  | none => none

/-- The message dict created when a header line matches (src/main.py
lines 57-76): note the audio search runs on the raw header body `b`,
before continuation lines exist and before stripping. -/
def mkMsg (bd : String) (fs : List String) (d t s b : String) : Message :=
  { datetime := pyParseDT d t
  , sender := pyStrip s
  , text := pyStrip b
  , audio_file := resolveAudio bd fs b
  , transcript := none }

/-- A continuation line is appended to the in-progress message's text,
separated by a single space (src/main.py line 79). -/
def appendCont (m : Message) (line : String) : Message :=
  { m with text := m.text ++ " " ++ pyStrip line }

/-- The parse loop of src/main.py lines 50-82, in structural form: the
in-progress message is emitted when the next header line starts a new one,
or at end of input.  Each line is first stripped of its trailing newline. -/
def parseLoop (bd : String) (fs : List String) : Option Message → List String → List Message
  | cur, [] => cur.toList
  | cur, line :: rest =>
    match matchHeader (rstripNL line) with
    | some (d, t, s, b) =>
      cur.toList ++ parseLoop bd fs (some (mkMsg bd fs d t s b)) rest
    | none =>
      match cur with
      | some m => parseLoop bd fs (some (appendCont m (rstripNL line))) rest
      | none => parseLoop bd fs none rest

/-- `parse_whatsapp_export` (src/main.py lines 42-84), over the file's lines
(as produced by `readlines`), the base directory and the on-disk file set. -/
def parse_whatsapp_export (lines : List String) (bd : String) (fs : List String) : List Message :=
  parseLoop bd fs none lines

/-- Join strings with a single separating space (the spec's description of
continuation merging). -/
def joinSp : List String → String
  | [] => ""
  | [x] => x
  | x :: y :: ys => x ++ " " ++ joinSp (y :: ys)

/-- The senders of a message list in order of first occurrence. -/
def firstSeen (l : List String) : List String :=
  l.foldl (fun acc s => if s ∈ acc then acc else acc ++ [s]) []

/-- Python truthiness of the optional `senders` list: `None` and `[]` are
falsy, so neither triggers the sender test. -/
def sendersTruthy : Option (List String) → Bool
  | none => false
  | some l => !l.isEmpty

/-- The keep decision of the `filter_messages` loop body, as one predicate:
the three `continue` tests of src/main.py lines 92-98 in order. -/
def keepB (start stop : Date) (senders : Option (List String)) (m : Message) : Bool :=
  match m.datetime with
  | none => false
  | some dt =>
    if ¬(dateLE start dt.date ∧ dateLE dt.date stop) then false
    else if sendersTruthy senders ∧ ¬((senders.getD []).contains m.sender) then false
    else true

/-- `filter_messages` (src/main.py lines 87-100): the loop with its three
`continue` tests, in order.  `senders` is the optional sender list; the
code's `if senders and …` makes both `None` and the empty list skip the
sender test. -/
def filter_messages : List Message → Date → Date → Option (List String) → List Message
  | [], _, _, _ => []
  | m :: rest, start, stop, senders =>
    match m.datetime with
    | none => filter_messages rest start stop senders
    | some dt =>
      if ¬(dateLE start dt.date ∧ dateLE dt.date stop) then
        filter_messages rest start stop senders
      else if sendersTruthy senders ∧ ¬((senders.getD []).contains m.sender) then
        filter_messages rest start stop senders
      else m :: filter_messages rest start stop senders

/-- Per-sender tabulation step: Python dict increment; a new key is appended
at the end, an existing key keeps its position (dict insertion order). -/
def bump : List (String × Nat) → String → List (String × Nat)
  | [], s => [(s, 1)]
  | (k, c) :: rest, s =>
    if k = s then (k, c + 1) :: rest else (k, c) :: bump rest s

/-- The `senders` dict of `generate_summary` (src/main.py lines 148-151),
as an association list in insertion order. -/
def tally (messages : List Message) : List (String × Nat) :=
  messages.foldl (fun acc m => bump acc m.sender) []

/-- One step of a stable descending-by-count insertion: an element arriving
later is placed after every element of equal or larger count. -/
def insertByCount (x : String × Nat) : List (String × Nat) → List (String × Nat)
  | [] => [x]
  | y :: ys => if x.2 ≤ y.2 then y :: insertByCount x ys else x :: y :: ys

/-- `sorted(senders.items(), key=lambda x: -x[1])` (src/main.py line 166):
Python's sort is stable, so it is modelled by a stable insertion sort on
the insertion-ordered tabulation. -/
def pySortedDesc (l : List (String × Nat)) : List (String × Nat) :=
  l.foldl (fun acc x => insertByCount x acc) []

/-- The ranked sender list of the summary. -/
def rankedSenders (messages : List Message) : List (String × Nat) :=
  pySortedDesc (tally messages)

/-- Zero-padded two-digit field of `strftime`. -/
def pad2 (n : Nat) : String :=
  if n < 10 then "0" ++ toString n else toString n

/-- Four-digit year field of `strftime` (`%Y`, zero-padded by CPython). -/
def pad4 (n : Nat) : String :=
  if n < 10 then "000" ++ toString n
  else if n < 100 then "00" ++ toString n
  else if n < 1000 then "0" ++ toString n
  else toString n

/-- `strftime("%d.%m.%Y %H:%M")`. -/
def fmtDT (dt : DateTime) : String :=
  pad2 dt.day ++ "." ++ pad2 dt.month ++ "." ++ pad4 dt.year ++ " " ++
    pad2 dt.hour ++ ":" ++ pad2 dt.minute

/-- `strftime("%d.%m.%Y")`. -/
def fmtD (dt : DateTime) : String :=
  pad2 dt.day ++ "." ++ pad2 dt.month ++ "." ++ pad4 dt.year

/-- The fixed text returned for an empty message list (src/main.py line 146). -/
def noMsgText : String := "Keine Nachrichten im gewählten Zeitraum."

/-- `generate_summary` (src/main.py lines 143-172).  Accessing `.strftime`
on an absent datetime raises in Python; the embedding returns `.error`
there.  All other paths return the joined summary text. -/
def generate_summary (messages : List Message) : Except String String :=
  if messages.isEmpty then .ok noMsgText else
  let total := messages.length
  let audio_count := messages.countP (fun m => pyTruthyOpt m.audio_file)
  match messages.head?.bind (·.datetime), messages.getLast?.bind (·.datetime) with
  | some start_dt, some end_dt =>
    let lines :=
      [ "=== Zusammenfassung ==="
      , "Zeitraum: " ++ fmtDT start_dt ++ " – " ++ fmtDT end_dt
      , "Nachrichten gesamt: " ++ toString total
      , "Sprachnachrichten: " ++ toString audio_count
      , ""
      , "Aktivität nach Teilnehmer:" ] ++
      (rankedSenders messages).map
        (fun sc => "  • " ++ sc.1 ++ ": " ++ toString sc.2 ++ " Nachrichten") ++
      [ ""
      , "Hinweis: Für eine detaillierte KI-Zusammenfassung kann ein lokales"
      , "         LLM (z. B. Ollama + LLaMA) in zukünftigen Versionen eingebunden werden." ]
    .ok (String.intercalate "\n" lines)
  | _, _ => .error "AttributeError: NoneType object has no attribute strftime"

/-- A flowable appended to the reportlab story: a styled paragraph (the
style is named by the `ParagraphStyle` name of src/main.py lines 187-197)
or a vertical spacer (height in tenths of a centimetre). -/
inductive Elem where
  | para (style : String) (text : String)
  | spacer (tenthCm : Nat)
deriving DecidableEq, Inhabited

/-- The sequential escaping `replace("&","&amp;")` on characters. -/
def replaceAmpL : List Char → List Char
  | [] => []
  | c :: rest =>
    if c = '&' then '&' :: 'a' :: 'm' :: 'p' :: ';' :: replaceAmpL rest
    else c :: replaceAmpL rest

/-- The sequential escaping `replace("<","&lt;")` on characters. -/
def replaceLtL : List Char → List Char
  | [] => []
  | c :: rest =>
    if c = '<' then '&' :: 'l' :: 't' :: ';' :: replaceLtL rest
    else c :: replaceLtL rest

/-- The sequential escaping `replace(">","&gt;")` on characters. -/
def replaceGtL : List Char → List Char
  | [] => []
  | c :: rest =>
    if c = '>' then '&' :: 'g' :: 't' :: ';' :: replaceGtL rest
    else c :: replaceGtL rest

/-- `text.replace("&","&amp;").replace("<","&lt;").replace(">","&gt;")`
(src/main.py lines 217 and 226), in the source's replacement order. -/
def pyEscape (s : String) : String :=
  ⟨replaceGtL (replaceLtL (replaceAmpL s.data))⟩

/-- The escaping rule as the spec states it: each markup-significant
character is replaced by its markup escape, all other characters kept. -/
def escChar (c : Char) : List Char :=
  if c = '&' then ['&', 'a', 'm', 'p', ';']
  else if c = '<' then ['&', 'l', 't', ';']
  else if c = '>' then ['&', 'g', 't', ';']
  else [c]

/-- Character-wise escaping, the spec-side counterpart of `pyEscape`. -/
def charEscape (s : String) : String :=
  ⟨s.data.foldr (fun c acc => escChar c ++ acc) []⟩

/-- The voice-message placeholder paragraph text (src/main.py line 215). -/
def placeholderText : String := "🎤 [Sprachnachricht – nicht transkribiert]"

/-- The formatted per-message timestamp: empty string when absent
(src/main.py line 207). -/
def msgDtStr (m : Message) : String :=
  match m.datetime with
  | some dt => fmtDT dt
  | none => ""

/-- The per-message header paragraph text (src/main.py line 208). -/
def msgHeaderStr (m : Message) : String :=
  "<b>" ++ m.sender ++ "</b> <font size=\x278\x27 color=\x27grey\x27>" ++ msgDtStr m ++ "</font>"

/-- The content paragraph of one message (src/main.py lines 211-218): the
audio branch is taken on a truthy `audio_file`, and within it the truthy
test on `transcript` selects transcript versus placeholder. -/
def msgContent (m : Message) : Elem :=
  if pyTruthyOpt m.audio_file then
    if pyTruthyOpt m.transcript then
      .para "transcript" ("🎤 <i>" ++ m.transcript.getD "" ++ "</i>")
    else
      .para "transcript" placeholderText
  else
    .para "msg" (pyEscape m.text)

/-- The story block of one message: header, content, trailing spacer
(src/main.py lines 206-220). -/
def msgBlock (m : Message) : List Elem :=
  [.para "msg" (msgHeaderStr m), msgContent m, .spacer 2]

/-- The summary section (src/main.py lines 222-227): skipped on a falsy
summary; otherwise a spacer, the section title, and one paragraph per
line, a blank line becoming the non-collapsing `&nbsp;`. -/
def summarySection (summary : Option String) : List Elem :=
  if pyTruthyOpt summary then
    match summary with
    | some s =>
      [.spacer 10, .para "title" "Zusammenfassung"] ++
      (s.splitOn "\n").map (fun line =>
        let safe := pyEscape line
        .para "summary" (if pyTruthyStr safe then safe else "&nbsp;"))
    | none => []
  else []

/-- The document meta line (src/main.py line 203). -/
def metaStr (sdt edt : DateTime) (n : Nat) : String :=
  "Zeitraum: " ++ fmtD sdt ++ " – " ++ fmtD edt ++ " | " ++ toString n ++ " Nachrichten"

/-- `export_pdf` (src/main.py lines 179-229) as the story it builds: title,
meta line (only for a non-empty list, and raising on an absent first or
last timestamp), one block per message, and the optional summary section. -/
def export_pdf (messages : List Message) (summary : Option String) : Except String (List Elem) :=
  if messages.isEmpty then
    .ok ([.para "title" "WhatsApp Analyse", .spacer 5] ++
      messages.flatMap msgBlock ++ summarySection summary)
  else
    match messages.head?.bind (·.datetime), messages.getLast?.bind (·.datetime) with
    | some sdt, some edt =>
      .ok ([.para "title" "WhatsApp Analyse",
            .para "meta" (metaStr sdt edt messages.length), .spacer 5] ++
        messages.flatMap msgBlock ++ summarySection summary)
    | _, _ => .error "AttributeError: NoneType object has no attribute strftime"

/-- Write a transcript into the store cell at index `i` (a Python list of
dicts is modelled as a store of records; an index is an object identity). -/
def storeWrite : List Message → Nat → String → List Message
  | [], _, _ => []
  | m :: rest, 0, t => { m with transcript := some t } :: rest
  | m :: rest, n + 1, t => m :: storeWrite rest n t

/-- `filter_messages` on a sequence of references: the Python list holds
references to the shared dicts, modelled as indices into the store; the
kept elements are the references themselves, not copies. -/
def filterIx (store : List Message) (ixs : List Nat) (start stop : Date)
    (senders : Option (List String)) : List Nat :=
  ixs.filter (fun i => keepB start stop senders (store.getD i default))

/-- `WhatsAppAnalyzer._on_transcript` (src/main.py lines 388-394): write the
transcript through the filtered reference, then re-assign it on every
element of the full sequence that `is` the same object. -/
def on_transcript (store : List Message) (messages filtered : List Nat)
    (index : Nat) (text : String) : List Message :=
  let orig := filtered.getD index 0
  let st1 := storeWrite store orig text
  messages.foldl (fun st m => if m = orig then storeWrite st m text else st) st1

/-- The filter's keep condition as the spec words it: timestamp present,
date within the inclusive range, and, when a non-empty sender collection is
supplied, sender exactly equal to one of its members. -/
def c4Keep (start stop : Date) (senders : Option (List String)) (m : Message) : Bool :=
  match m.datetime with
  | none => false
  | some dt =>
    dateLE start dt.date && dateLE dt.date stop &&
      (match senders with
       | none => true
       | some l => if l.isEmpty then true else l.contains m.sender)

/-- A minimal message with a given sender (used to instantiate theorems). -/
def exMsg (s : String) : Message :=
  { datetime := none, sender := s, text := "", audio_file := none, transcript := none }

/-- Messages with sender counts Anna:3, Ben:3, Chris:1, Anna first seen
before Ben. -/
def c5Msgs : List Message :=
  [exMsg "Anna", exMsg "Ben", exMsg "Anna", exMsg "Ben", exMsg "Anna",
   exMsg "Ben", exMsg "Chris"]

/-- A plain-text message with markup-significant characters. -/
def c6Msgs : List Message :=
  [{ datetime := some ⟨2020, 1, 1, 10, 0, 0⟩, sender := "A", text := "a&<>b",
     audio_file := none, transcript := none }]

/-- The story the renderer produces for `c6Msgs` with a three-line summary
whose middle line is blank. -/
def c6Story : List Elem :=
  (export_pdf c6Msgs (some "x\n\ny")).toOption.getD []

/-- A voice message carrying a non-empty transcript. -/
def c1Msg : Message :=
  { datetime := none, sender := "A", text := "", audio_file := some "a.opus",
    transcript := some "hallo" }

/-- A voice message whose transcription returned empty text. -/
def c1MsgEmpty : Message :=
  { datetime := none, sender := "A", text := "", audio_file := some "a.opus",
    transcript := some "" }

/-- A two-message store: one in range, one out of range. -/
def c9Store : List Message :=
  [{ datetime := some ⟨2020, 6, 1, 10, 0, 0⟩, sender := "A", text := "hi",
     audio_file := some "base/a.opus", transcript := none },
   { datetime := some ⟨2021, 6, 1, 10, 0, 0⟩, sender := "B", text := "du",
     audio_file := none, transcript := none }]

/-- Folding a fresh space-separated chunk into the head of a join. -/
theorem joinSp_chunk (a b : String) (r : List String) :
    joinSp ((a ++ " " ++ b) :: r) = a ++ " " ++ joinSp (b :: r) := by
  cases r with
  | nil => simp [joinSp]
  | cons y ys => simp [joinSp, String.append_assoc]

/-- A header line splits the parse: everything before it parses on its own,
and the header starts a fresh in-progress message. -/
theorem parseLoop_append_header (bd : String) (fs : List String)
    (l : String) (v : String × String × String × String)
    (hl : matchHeader (rstripNL l) = some v) (ys : List String) :
    ∀ (xs : List String) (cur : Option Message),
      parseLoop bd fs cur (xs ++ l :: ys) =
        parseLoop bd fs cur xs ++ parseLoop bd fs none (l :: ys) := by
  intro xs
  induction xs with
  | nil =>
    intro cur
    obtain ⟨d, t, s, b⟩ := v
    simp [parseLoop, hl]
  | cons x xs ih =>
    intro cur
    show parseLoop bd fs cur (x :: (xs ++ l :: ys)) = _
    rcases hx : matchHeader (rstripNL x) with _ | ⟨d, t, s, b⟩
    · cases cur with
      | some m => simpa [parseLoop, hx] using ih (some (appendCont m (rstripNL x)))
      | none => simpa [parseLoop, hx] using ih none
    · simp [parseLoop, hx, ih (some (mkMsg bd fs d t s b)), List.append_assoc]

/-- Non-header lines before the first header are silently discarded. -/
theorem parseLoop_none_skip (bd : String) (fs : List String) :
    ∀ (xs ys : List String), (∀ x ∈ xs, matchHeader (rstripNL x) = none) →
      parseLoop bd fs none (xs ++ ys) = parseLoop bd fs none ys := by
  intro xs
  induction xs with
  | nil => intro ys _; rfl
  | cons x xs ih =>
    intro ys h
    have hx : matchHeader (rstripNL x) = none := h x (by simp)
    show parseLoop bd fs none (x :: (xs ++ ys)) = _
    simpa [parseLoop, hx] using ih ys (fun x hx => h x (by simp [hx]))

/-- The in-progress message is the next message emitted, and continuation
lines never change its datetime, sender or audio reference. -/
theorem parseLoop_some_head (bd : String) (fs : List String) :
    ∀ (ys : List String) (m : Message), ∃ r rest,
      parseLoop bd fs (some m) ys = r :: rest ∧
      r.datetime = m.datetime ∧ r.sender = m.sender ∧ r.audio_file = m.audio_file := by
  intro ys
  induction ys with
  | nil => intro m; exact ⟨m, [], rfl, rfl, rfl, rfl⟩
  | cons y ys ih =>
    intro m
    rcases hy : matchHeader (rstripNL y) with _ | ⟨d, t, s, b⟩
    · obtain ⟨r, rest, heq, h1, h2, h3⟩ := ih (appendCont m (rstripNL y))
      exact ⟨r, rest, by simpa [parseLoop, hy] using heq, h1, h2, h3⟩
    · exact ⟨m, parseLoop bd fs (some (mkMsg bd fs d t s b)) ys,
        by simp [parseLoop, hy], rfl, rfl, rfl⟩

/-- With only continuation lines remaining, the in-progress message is the
single emitted message, and its text is the space-separated join of its
current text with the stripped continuation lines in order. -/
theorem parseLoop_all_cont (bd : String) (fs : List String) :
    ∀ (ys : List String) (m : Message), (∀ x ∈ ys, matchHeader (rstripNL x) = none) →
      ∃ r, parseLoop bd fs (some m) ys = [r] ∧
        r.datetime = m.datetime ∧ r.sender = m.sender ∧ r.audio_file = m.audio_file ∧
        r.text = joinSp (m.text :: ys.map (fun x => pyStrip (rstripNL x))) := by
  intro ys
  induction ys with
  | nil => intro m _; exact ⟨m, rfl, rfl, rfl, rfl, by simp [joinSp]⟩
  | cons y ys ih =>
    intro m h
    have hy : matchHeader (rstripNL y) = none := h y (by simp)
    obtain ⟨r, heq, h1, h2, h3, h4⟩ :=
      ih (appendCont m (rstripNL y)) (fun x hx => h x (by simp [hx]))
    refine ⟨r, by simpa [parseLoop, hy] using heq, h1, h2, h3, ?_⟩
    rw [h4]
    show joinSp ((m.text ++ " " ++ pyStrip (rstripNL y)) :: _) = _
    rw [joinSp_chunk]
    simp [joinSp]

/-- The filter loop is the `List.filter` of its keep decision. -/
theorem filter_messages_eq (ms : List Message) (start stop : Date)
    (senders : Option (List String)) :
    filter_messages ms start stop senders = ms.filter (keepB start stop senders) := by
  induction ms with
  | nil => rfl
  | cons m rest ih =>
    rcases hdt : m.datetime with _ | dt
    · simpa [filter_messages, hdt, List.filter, keepB] using ih
    · by_cases hrange : dateLE start dt.date ∧ dateLE dt.date stop
      · by_cases hst : sendersTruthy senders = true
        · by_cases hcon : m.sender ∈ senders.getD []
          · simp [filter_messages, hdt, hrange, hst, hcon, List.filter, keepB, ih]
          · simp [filter_messages, hdt, hrange, hst, hcon, List.filter, keepB, ih]
        · simp [filter_messages, hdt, hrange, hst, List.filter, keepB, ih]
      · simp [filter_messages, hdt, hrange, List.filter, keepB, ih]

/-- Every message kept by the filter carries a timestamp. -/
theorem mem_filter_messages_isSome (ms : List Message) (start stop : Date)
    (senders : Option (List String)) (r : Message)
    (hr : r ∈ filter_messages ms start stop senders) : r.datetime.isSome := by
  rw [filter_messages_eq] at hr
  have hk := (List.mem_filter.mp hr).2
  rcases hdt : r.datetime with _ | dt
  · rw [keepB, hdt] at hk; cases hk
  · simp

/-- Membership in a stable insertion step. -/
theorem mem_insertByCount (a x : String × Nat) (l : List (String × Nat)) :
    a ∈ insertByCount x l ↔ a = x ∨ a ∈ l := by
  induction l with
  | nil => simp [insertByCount]
  | cons y ys ih =>
    rw [insertByCount]
    by_cases h : x.2 ≤ y.2
    · rw [if_pos h, List.mem_cons, List.mem_cons, ih]
      tauto
    · rw [if_neg h, List.mem_cons, List.mem_cons]

/-- A stable insertion step preserves descending-by-count order. -/
theorem pairwise_insertByCount (x : String × Nat) (l : List (String × Nat))
    (h : l.Pairwise (fun a b => b.2 ≤ a.2)) :
    (insertByCount x l).Pairwise (fun a b => b.2 ≤ a.2) := by
  induction l with
  | nil => simp [insertByCount]
  | cons y ys ih =>
    rw [List.pairwise_cons] at h
    by_cases hxy : x.2 ≤ y.2
    · rw [insertByCount]
      simp only [hxy, if_pos]
      rw [List.pairwise_cons]
      refine ⟨?_, ih h.2⟩
      intro z hz
      rcases (mem_insertByCount z x ys).mp hz with rfl | hzys
      · exact hxy
      · exact h.1 z hzys
    · rw [insertByCount]
      simp only [hxy, if_neg, not_false_iff]
      rw [List.pairwise_cons]
      refine ⟨?_, List.pairwise_cons.mpr h⟩
      intro z hz
      rcases List.mem_cons.mp hz with rfl | hzys
      · omega
      · exact Nat.le_trans (h.1 z hzys) (by omega)

/-- Inserting into a sorted list puts the new element after every element of
equal count: filtering at the new element's count appends it at the end. -/
theorem filter_insertByCount (x : String × Nat) (l : List (String × Nat)) (c : Nat)
    (h : l.Pairwise (fun a b => b.2 ≤ a.2)) :
    (insertByCount x l).filter (fun p => p.2 == c) =
      (if x.2 = c then l.filter (fun p => p.2 == c) ++ [x]
       else l.filter (fun p => p.2 == c)) := by
  induction l with
  | nil => by_cases hx : x.2 = c <;> simp [insertByCount, List.filter_cons, hx]
  | cons y ys ih =>
    rw [List.pairwise_cons] at h
    by_cases hxy : x.2 ≤ y.2
    · rw [insertByCount]
      simp only [hxy, if_pos]
      rw [List.filter_cons, List.filter_cons, ih h.2]
      by_cases hx : x.2 = c <;> by_cases hy : (y.2 == c) = true <;> simp [hx, hy]
    · rw [insertByCount]
      simp only [hxy, if_neg, not_false_iff]
      have hnil : (y :: ys).filter (fun p => p.2 == c) = [] ∨ ¬ x.2 = c := by
        by_cases hx : x.2 = c
        · left
          rw [List.filter_eq_nil_iff]
          intro a ha
          rcases List.mem_cons.mp ha with rfl | haa
          · simp; omega
          · have := h.1 a haa
            simp; omega
        · right; exact hx
      by_cases hx : x.2 = c
      · rcases hnil with hnil | hbad
        · simp [List.filter_cons, hx, hnil]
        · exact absurd hx hbad
      · simp [List.filter_cons, hx]

/-- The stable sort is pairwise descending by count. -/
theorem pySortedDesc_aux_pairwise (l acc : List (String × Nat))
    (h : acc.Pairwise (fun a b => b.2 ≤ a.2)) :
    (l.foldl (fun acc x => insertByCount x acc) acc).Pairwise (fun a b => b.2 ≤ a.2) := by
  induction l generalizing acc with
  | nil => exact h
  | cons x xs ih => exact ih _ (pairwise_insertByCount x acc h)

/-- Filtering at a fixed count commutes with the stable sort (stability). -/
theorem pySortedDesc_aux_filter (c : Nat) (l : List (String × Nat)) :
    ∀ acc, acc.Pairwise (fun a b => b.2 ≤ a.2) →
      (l.foldl (fun acc x => insertByCount x acc) acc).filter (fun p => p.2 == c) =
        acc.filter (fun p => p.2 == c) ++ l.filter (fun p => p.2 == c) := by
  induction l with
  | nil => intro acc _; simp
  | cons x xs ih =>
    intro acc hacc
    show (xs.foldl _ (insertByCount x acc)).filter _ = _
    rw [ih (insertByCount x acc) (pairwise_insertByCount x acc hacc),
      filter_insertByCount x acc c hacc, List.filter_cons]
    by_cases hx : x.2 = c
    · simp [hx]
    · simp [hx]

/-- Tabulation keys: a bump either keeps the key list or appends the new key. -/
theorem bump_map_fst (acc : List (String × Nat)) (s : String) :
    (bump acc s).map Prod.fst =
      (if s ∈ acc.map Prod.fst then acc.map Prod.fst
       else acc.map Prod.fst ++ [s]) := by
  induction acc with
  | nil => simp [bump]
  | cons kc rest ih =>
    obtain ⟨k, c⟩ := kc
    by_cases hk : k = s
    · simp [bump, hk]
    · have hks : ¬ s = k := fun h => hk h.symm
      rw [bump]
      simp only [hk, if_neg, not_false_iff, List.map_cons, ih]
      by_cases hs : s ∈ rest.map Prod.fst
      · simp [List.mem_cons, hs, hks]
      · simp [List.mem_cons, hs, hks]

/-- The tabulation's key sequence is the first-occurrence sequence of the
senders. -/
theorem tally_aux_fst (ms : List Message) :
    ∀ acc, (ms.foldl (fun acc m => bump acc m.sender) acc).map Prod.fst =
      (ms.map (fun m => m.sender)).foldl
        (fun acc s => if s ∈ acc then acc else acc ++ [s]) (acc.map Prod.fst) := by
  induction ms with
  | nil => intro acc; rfl
  | cons m rest ih =>
    intro acc
    show (rest.foldl _ (bump acc m.sender)).map Prod.fst = _
    rw [ih (bump acc m.sender), bump_map_fst]
    rfl

/-- Keys of the tabulation, in first-seen order. -/
theorem tally_map_fst (ms : List Message) :
    (tally ms).map Prod.fst = firstSeen (ms.map (fun m => m.sender)) := by
  simpa [tally, firstSeen] using tally_aux_fst ms []

/-- The three sequential replacements equal the character-wise escaping:
replacing `&` first means the ampersands introduced by `&lt;`/`&gt;` are
never re-escaped, and neither replacement introduces `<` or `>`. -/
theorem seqReplace_eq_escAll (l : List Char) :
    replaceGtL (replaceLtL (replaceAmpL l)) =
      l.foldr (fun c acc => escChar c ++ acc) [] := by
  induction l with
  | nil => rfl
  | cons c l ih =>
    by_cases hamp : c = '&'
    · subst hamp
      simp [replaceAmpL, replaceLtL, replaceGtL, escChar, ih]
    · by_cases hlt : c = '<'
      · subst hlt
        simp [replaceAmpL, replaceLtL, replaceGtL, escChar, ih]
      · by_cases hgt : c = '>'
        · subst hgt
          simp [replaceAmpL, replaceLtL, replaceGtL, escChar, ih]
        · simp [replaceAmpL, replaceLtL, replaceGtL, escChar, hamp, hlt, hgt, ih]

/-- The source's sequential escaping and the spec's character-wise escaping
agree on every string. -/
theorem pyEscape_eq_charEscape (s : String) : pyEscape s = charEscape s := by
  apply String.ext
  simpa [pyEscape, charEscape] using seqReplace_eq_escAll s.data

/-- A character's escape is never empty. -/
theorem escChar_ne_nil (c : Char) : escChar c ≠ [] := by
  rw [escChar]
  split
  · simp
  · split
    · simp
    · split <;> simp

/-- Escaping yields the empty string only on the empty string. -/
theorem pyEscape_eq_empty_iff (s : String) : pyEscape s = "" ↔ s = "" := by
  rw [pyEscape_eq_charEscape]
  constructor
  · intro h
    have hdata : s.data.foldr (fun c acc => escChar c ++ acc) [] = [] := by
      have := congrArg String.data h
      simpa [charEscape] using this
    cases hs : s.data with
    | nil => exact String.ext (by simp [hs])
    | cons c rest =>
      rw [hs, List.foldr_cons] at hdata
      exact absurd (List.append_eq_nil.mp hdata).1 (escChar_ne_nil c)
  · intro h
    subst h
    rfl

/-- Truthiness of a string is its non-emptiness. -/
theorem pyTruthyStr_iff (s : String) : pyTruthyStr s = true ↔ s ≠ "" := by
  rw [pyTruthyStr]
  cases hs : s.data with
  | nil =>
    simp only [Bool.false_eq_true, false_iff, not_not]
    exact String.ext (by simp [hs])
  | cons c rest =>
    simp only [true_iff]
    intro h
    rw [h] at hs
    cases hs

/-- Writing a transcript does not change the store's length. -/
theorem storeWrite_length (store : List Message) (i : Nat) (t : String) :
    (storeWrite store i t).length = store.length := by
  induction store generalizing i with
  | nil => rfl
  | cons m rest ih => cases i <;> simp [storeWrite, ih]

/-- Reading back the written cell. -/
theorem storeWrite_getD_self (store : List Message) (i : Nat) (t : String)
    (h : i < store.length) :
    (storeWrite store i t).getD i default =
      { store.getD i default with transcript := some t } := by
  induction store generalizing i with
  | nil => cases h
  | cons m rest ih =>
    cases i with
    | zero => rfl
    | succ n => simpa [storeWrite] using ih n (by simpa using h)

/-- Other cells are untouched by a write. -/
theorem storeWrite_getD_ne (store : List Message) (i j : Nat) (t : String)
    (h : j ≠ i) : (storeWrite store i t).getD j default = store.getD j default := by
  induction store generalizing i j with
  | nil => rfl
  | cons m rest ih =>
    cases i with
    | zero => cases j with
      | zero => exact absurd rfl h
      | succ k => rfl
    | succ n => cases j with
      | zero => rfl
      | succ k => simpa [storeWrite] using ih n k (by omega)

/-- An in-bounds `getD` is a member. -/
theorem getD_mem_nat (l : List Nat) (n : Nat) (h : n < l.length) : l.getD n 0 ∈ l := by
  induction l generalizing n with
  | nil => cases h
  | cons x xs ih =>
    cases n with
    | zero => simp
    | succ k => exact List.mem_cons_of_mem x (ih k (by simpa using h))

/-- The loop's keep decision coincides with the spec-side keep condition. -/
theorem keepB_eq_c4Keep (start stop : Date) (sd : Option (List String)) (m : Message) :
    keepB start stop sd m = c4Keep start stop sd m := by
  rcases hdt : m.datetime with _ | dt
  · simp [keepB, c4Keep, hdt]
  · cases sd with
    | none =>
      by_cases hA : dateLE start dt.date = true <;>
        by_cases hB : dateLE dt.date stop = true <;>
          simp [keepB, c4Keep, hdt, hA, hB, sendersTruthy]
    | some l =>
      by_cases hA : dateLE start dt.date = true <;>
        by_cases hB : dateLE dt.date stop = true <;>
          by_cases hl : l.isEmpty = true <;>
            by_cases hc : m.sender ∈ l <;>
              simp [keepB, c4Keep, hdt, hA, hB, sendersTruthy, hl, hc]

/-- The transcript paragraph can never coincide with the placeholder
paragraph: their texts differ at the third character. -/
theorem transcript_para_ne_placeholder (t : String) :
    ("🎤 <i>" ++ t ++ "</i>") ≠ placeholderText := by
  intro h
  have h2 := congrArg (fun s => s.data[2]?) h
  have hL : ("🎤 <i>" ++ t ++ "</i>").data[2]? = some '<' := by
    have hdata : ("🎤 <i>" ++ t ++ "</i>").data =
        "🎤 <i>".data ++ (t.data ++ "</i>".data) := by
      simp
    rw [hdata, List.getElem?_append_left (by decide)]
    decide
  have hR : placeholderText.data[2]? = some '[' := by decide
  simp only [hL, hR] at h2
  exact absurd h2 (by decide)

/-- The fold of `_on_transcript` over the full sequence only ever rewrites
the already-written cell, so the written transcript and the frame survive. -/
theorem on_transcript_fold_inv (store : List Message) (orig : Nat) (txt : String)
    (hor : orig < store.length) :
    ∀ (msgs : List Nat) (st : List Message),
      (st.getD orig default).transcript = some txt →
      (∀ j, j ≠ orig → st.getD j default = store.getD j default) →
      st.length = store.length →
      ((msgs.foldl (fun st m => if m = orig then storeWrite st m txt else st) st).getD
          orig default).transcript = some txt ∧
      (∀ j, j ≠ orig →
        (msgs.foldl (fun st m => if m = orig then storeWrite st m txt else st) st).getD
          j default = store.getD j default) := by
  intro msgs
  induction msgs with
  | nil => intro st h1 h2 _; exact ⟨h1, h2⟩
  | cons m rest ih =>
    intro st h1 h2 hlen
    by_cases hm : m = orig
    · subst hm
      have hmlt : m < st.length := by omega
      simp only [List.foldl_cons, if_pos]
      refine ih (storeWrite st m txt) ?_ ?_ ?_
      · rw [storeWrite_getD_self st m txt hmlt]
      · intro j hj
        rw [storeWrite_getD_ne st m j txt hj]
        exact h2 j hj
      · rw [storeWrite_length]; exact hlen
    · simp only [List.foldl_cons, if_neg hm]
      exact ih st h1 h2 hlen

/-- C8: summarizing the empty record sequence returns the defined German
"no messages in range" text — no exception is modelled and the text is not
the empty string. -/
theorem c8_empty_summary :
    generate_summary [] = Except.ok noMsgText ∧ noMsgText ≠ "" :=
  ⟨rfl, by decide⟩

/-- C4: the filter returns exactly the order-preserving subsequence of the
records whose timestamp is present, whose date lies inclusively between
the bounds, and — when a non-empty sender collection is supplied — whose
sender is exactly a member of it; records without a timestamp are always
excluded, and the result may be empty without error. -/
theorem c4_filter_characterization (ms : List Message) (start stop : Date)
    (senders : Option (List String)) :
    filter_messages ms start stop senders = ms.filter (c4Keep start stop senders) ∧
    (filter_messages ms start stop senders).Sublist ms := by
  constructor
  · rw [filter_messages_eq]
    exact List.filter_congr (fun m _ => keepB_eq_c4Keep start stop senders m)
  · rw [filter_messages_eq]
    exact List.filter_sublist ms

/-- C2: a header line followed by k continuation lines parses to exactly one
record whose text is the stripped header body followed by the stripped
continuation lines in source order, space-separated; non-header lines
before the first header line leave the parse unchanged. -/
theorem c2_continuation_merging (bd : String) (fs : List String)
    (pre : List String) (hpre : ∀ p ∈ pre, matchHeader (rstripNL p) = none)
    (l d t s b : String) (hl : matchHeader (rstripNL l) = some (d, t, s, b))
    (ls : List String) (hls : ∀ x ∈ ls, matchHeader (rstripNL x) = none) :
    parse_whatsapp_export (pre ++ l :: ls) bd fs = parse_whatsapp_export (l :: ls) bd fs ∧
    ∃ r, parse_whatsapp_export (l :: ls) bd fs = [r] ∧
      r.text = joinSp (pyStrip b :: ls.map (fun x => pyStrip (rstripNL x))) := by
  constructor
  · exact parseLoop_none_skip bd fs pre (l :: ls) hpre
  · have h1 : parse_whatsapp_export (l :: ls) bd fs =
        parseLoop bd fs (some (mkMsg bd fs d t s b)) ls := by
      simp [parse_whatsapp_export, parseLoop, hl]
    obtain ⟨r, heq, _, _, _, htext⟩ :=
      parseLoop_all_cont bd fs ls (mkMsg bd fs d t s b) hls
    refine ⟨r, by rw [h1, heq], ?_⟩
    rw [htext]
    rfl

/-- C2 witness: a discarded leading line, one header line, two continuation
lines. -/
theorem c2_witness :
    (∀ p ∈ ["hello"], matchHeader (rstripNL p) = none) ∧
    matchHeader (rstripNL "1.1.2020, 10:00 - Anna: Hi") =
      some ("1.1.2020", "10:00", "Anna", "Hi") ∧
    (∀ x ∈ ["du", " da  "], matchHeader (rstripNL x) = none) ∧
    (parse_whatsapp_export (["hello"] ++ "1.1.2020, 10:00 - Anna: Hi" :: ["du", " da  "]) "b" [] =
        parse_whatsapp_export ("1.1.2020, 10:00 - Anna: Hi" :: ["du", " da  "]) "b" [] ∧
      ∃ r, parse_whatsapp_export ("1.1.2020, 10:00 - Anna: Hi" :: ["du", " da  "]) "b" [] = [r] ∧
        r.text = joinSp (pyStrip "Hi" :: (["du", " da  "].map (fun x => pyStrip (rstripNL x))))) :=
  ⟨by decide, by decide, by decide,
    c2_continuation_merging "b" [] ["hello"] (by decide)
      "1.1.2020, 10:00 - Anna: Hi" "1.1.2020" "10:00" "Anna" "Hi" (by decide)
      ["du", " da  "] (by decide)⟩

/-- C7: a header line whose date+time does not parse still yields a record
(the parse returns normally and the suffix parses independently), the
record's timestamp is absent and its sender intact, and such a record is
excluded from the output of every date-range filter. -/
theorem c7_unparsable_date (bd : String) (fs : List String)
    (ls1 ls2 : List String) (l d t s b : String)
    (hl : matchHeader (rstripNL l) = some (d, t, s, b))
    (hdt : pyParseDT d t = none) :
    parse_whatsapp_export (ls1 ++ l :: ls2) bd fs =
      parse_whatsapp_export ls1 bd fs ++ parse_whatsapp_export (l :: ls2) bd fs ∧
    ∃ r rest, parse_whatsapp_export (l :: ls2) bd fs = r :: rest ∧
      r.datetime = none ∧ r.sender = pyStrip s ∧
      ∀ (ms : List Message) (start stop : Date) (senders : Option (List String)),
        r ∉ filter_messages ms start stop senders := by
  constructor
  · exact parseLoop_append_header bd fs l _ hl ls2 ls1 none
  · have h1 : parse_whatsapp_export (l :: ls2) bd fs =
        parseLoop bd fs (some (mkMsg bd fs d t s b)) ls2 := by
      simp [parse_whatsapp_export, parseLoop, hl]
    obtain ⟨r, rest, heq, h2, h3, _⟩ :=
      parseLoop_some_head bd fs ls2 (mkMsg bd fs d t s b)
    have hnone : r.datetime = none := by
      rw [h2]
      exact hdt
    refine ⟨r, rest, by rw [h1, heq], hnone, h3.trans rfl, ?_⟩
    intro ms start stop senders hmem
    have hsome := mem_filter_messages_isSome ms start stop senders r hmem
    rw [hnone] at hsome
    cases hsome

/-- C7 witness: month 99 makes the date unparsable while the line still
matches the header pattern. -/
theorem c7_witness :
    matchHeader (rstripNL "99.99.2023, 10:00 - Alice: Hallo") =
      some ("99.99.2023", "10:00", "Alice", "Hallo") ∧
    pyParseDT "99.99.2023" "10:00" = none ∧
    (parse_whatsapp_export (["x"] ++ "99.99.2023, 10:00 - Alice: Hallo" :: []) "b" [] =
        parse_whatsapp_export ["x"] "b" [] ++
          parse_whatsapp_export ("99.99.2023, 10:00 - Alice: Hallo" :: []) "b" [] ∧
      ∃ r rest, parse_whatsapp_export ("99.99.2023, 10:00 - Alice: Hallo" :: []) "b" [] = r :: rest ∧
        r.datetime = none ∧ r.sender = pyStrip "Alice" ∧
        ∀ (ms : List Message) (start stop : Date) (senders : Option (List String)),
          r ∉ filter_messages ms start stop senders) :=
  ⟨by decide, by decide,
    c7_unparsable_date "b" [] ["x"] [] "99.99.2023, 10:00 - Alice: Hallo"
      "99.99.2023" "10:00" "Alice" "Hallo" (by decide) (by decide)⟩

/-- The attachment resolution succeeds exactly on a textual match whose
resolved path exists. -/
theorem resolveAudio_isSome_iff (bd : String) (fs : List String) (text : String) :
    (resolveAudio bd fs text).isSome = true ↔
      ∃ f, audioSearch text = some f ∧ (bd ++ "/" ++ f) ∈ fs := by
  rcases hsearch : audioSearch text with _ | f
  · simp [resolveAudio, hsearch]
  · by_cases hmem : (bd ++ "/" ++ f) ∈ fs
    · simp [resolveAudio, hsearch, hmem]
    · simp [resolveAudio, hsearch, hmem]

/-- A textual match with no existing file resolves to `none`. -/
theorem resolveAudio_none_of_missing (bd : String) (fs : List String) (text f : String)
    (hf : audioSearch text = some f) (hnot : (bd ++ "/" ++ f) ∉ fs) :
    resolveAudio bd fs text = none := by
  simp [resolveAudio, hf, hnot]

/-- C3 counterexample: the audio filename appears only on a continuation
line; the assembled record text contains it and the resolved file exists,
yet `audio_file` is absent — the code searched the header body only. -/
theorem c3_counterexample :
    (parse_whatsapp_export ["1.1.2020, 10:00 - A: hi", "voice.opus"] "base"
      ["base/voice.opus"]).length = 1 ∧
    ((parse_whatsapp_export ["1.1.2020, 10:00 - A: hi", "voice.opus"] "base"
      ["base/voice.opus"]).getD 0 default).audio_file = none ∧
    audioSearch ((parse_whatsapp_export ["1.1.2020, 10:00 - A: hi", "voice.opus"] "base"
      ["base/voice.opus"]).getD 0 default).text = some "voice.opus" ∧
    ("base" ++ "/" ++ "voice.opus") ∈ ["base/voice.opus"] := by
  decide

/-- C3 (amended): for the record created by any header line, `audio_file`
is determined by the header line's body alone (before continuation
merging): it is non-null iff the body contains a recognized audio filename
whose path, resolved against the base directory, exists on disk; a textual
match with no existing file leaves it absent. -/
theorem c3_attachment_gating (bd : String) (fs : List String)
    (ls1 ls2 : List String) (l d t s b : String)
    (hl : matchHeader (rstripNL l) = some (d, t, s, b)) :
    ∃ r rest,
      parse_whatsapp_export (ls1 ++ l :: ls2) bd fs =
        parse_whatsapp_export ls1 bd fs ++ r :: rest ∧
      r.audio_file = resolveAudio bd fs b ∧
      (r.audio_file.isSome = true ↔
        ∃ f, audioSearch b = some f ∧ (bd ++ "/" ++ f) ∈ fs) ∧
      (∀ f, audioSearch b = some f → (bd ++ "/" ++ f) ∉ fs → r.audio_file = none) := by
  obtain ⟨r, rest, heq, _, _, ha⟩ :=
    parseLoop_some_head bd fs ls2 (mkMsg bd fs d t s b)
  have hsplit := parseLoop_append_header bd fs l _ hl ls2 ls1 none
  have h1 : parseLoop bd fs none (l :: ls2) =
      parseLoop bd fs (some (mkMsg bd fs d t s b)) ls2 := by
    simp [parseLoop, hl]
  have haud : r.audio_file = resolveAudio bd fs b := ha.trans rfl
  refine ⟨r, rest, ?_, haud, ?_, ?_⟩
  · show parseLoop bd fs none (ls1 ++ l :: ls2) = parseLoop bd fs none ls1 ++ r :: rest
    rw [hsplit, h1, heq]
  · rw [haud]
    exact resolveAudio_isSome_iff bd fs b
  · intro f hf hnot
    rw [haud]
    exact resolveAudio_none_of_missing bd fs b f hf hnot

/-- C3 witness: a header-body attachment that exists resolves; the same
name with an empty filesystem stays absent. -/
theorem c3_witness :
    matchHeader (rstripNL "1.1.2020, 10:00 - A: hi voice.opus") =
      some ("1.1.2020", "10:00", "A", "hi voice.opus") ∧
    (∃ r rest,
      parse_whatsapp_export ([] ++ "1.1.2020, 10:00 - A: hi voice.opus" :: []) "base"
          ["base/voice.opus"] =
        parse_whatsapp_export [] "base" ["base/voice.opus"] ++ r :: rest ∧
      r.audio_file = resolveAudio "base" ["base/voice.opus"] "hi voice.opus" ∧
      (r.audio_file.isSome = true ↔
        ∃ f, audioSearch "hi voice.opus" = some f ∧ ("base" ++ "/" ++ f) ∈ ["base/voice.opus"]) ∧
      (∀ f, audioSearch "hi voice.opus" = some f →
        ("base" ++ "/" ++ f) ∉ ["base/voice.opus"] → r.audio_file = none)) :=
  ⟨by decide,
    c3_attachment_gating "base" ["base/voice.opus"] [] []
      "1.1.2020, 10:00 - A: hi voice.opus" "1.1.2020" "10:00" "A" "hi voice.opus"
      (by decide)⟩

/-- C1 counterexample: a voice message whose transcript is present but equal
to the empty string renders the "not yet transcribed" placeholder, so the
renderer does not distinguish an absent transcript from an empty one. -/
theorem c1_counterexample :
    c1MsgEmpty.audio_file ≠ none ∧
    c1MsgEmpty.transcript = some "" ∧
    msgContent c1MsgEmpty = Elem.para "transcript" placeholderText := by
  decide

/-- C1 (amended): for a record whose `audio_file` is truthy, the placeholder
is rendered exactly when the transcript is absent or the empty string, and
the glyph-prefixed, visually distinguished transcript paragraph is rendered
whenever the transcript is present and non-empty. -/
theorem c1_transcript_rendering (m : Message) (h : pyTruthyOpt m.audio_file = true) :
    (msgContent m = Elem.para "transcript" placeholderText ↔
      (m.transcript = none ∨ m.transcript = some "")) ∧
    ∀ t, m.transcript = some t → t ≠ "" →
      msgContent m = Elem.para "transcript" ("🎤 <i>" ++ t ++ "</i>") := by
  have hbranch : ∀ t, m.transcript = some t → t ≠ "" →
      msgContent m = Elem.para "transcript" ("🎤 <i>" ++ t ++ "</i>") := by
    intro t htr ht
    have htruthy : pyTruthyOpt (some t) = true := by
      show pyTruthyStr t = true
      exact (pyTruthyStr_iff t).mpr ht
    simp [msgContent, h, htr, htruthy]
  refine ⟨⟨?_, ?_⟩, hbranch⟩
  · intro hpl
    rcases htr : m.transcript with _ | t
    · exact Or.inl rfl
    · by_cases ht : t = ""
      · subst ht; exact Or.inr rfl
      · exfalso
        have hEq := (hbranch t htr ht).symm.trans hpl
        injection hEq with _ hstr
        exact transcript_para_ne_placeholder t hstr
  · intro habs
    have hfalse : pyTruthyOpt m.transcript = false := by
      rcases habs with h1 | h1 <;> rw [h1] <;> rfl
    simp [msgContent, h, hfalse]

/-- C1 witness: a truthy audio reference with a non-empty transcript renders
the transcript paragraph; with an empty transcript the iff yields the
placeholder. -/
theorem c1_witness :
    pyTruthyOpt c1Msg.audio_file = true ∧
    ((msgContent c1Msg = Elem.para "transcript" placeholderText ↔
        (c1Msg.transcript = none ∨ c1Msg.transcript = some "")) ∧
      ∀ t, c1Msg.transcript = some t → t ≠ "" →
        msgContent c1Msg = Elem.para "transcript" ("🎤 <i>" ++ t ++ "</i>")) :=
  ⟨by decide, c1_transcript_rendering c1Msg (by decide)⟩

/-- C5: the ranked sender list is sorted by count descending; filtering it
at any fixed count gives exactly the tabulation's entries of that count in
tabulation order (stable ties); and the tabulation's key order is the
order of first occurrence of the senders in the input. -/
theorem c5_ranked_senders (ms : List Message) (_h : ms ≠ []) :
    (rankedSenders ms).Pairwise (fun a b => b.2 ≤ a.2) ∧
    (∀ c, (rankedSenders ms).filter (fun p => p.2 == c) =
      (tally ms).filter (fun p => p.2 == c)) ∧
    (tally ms).map Prod.fst = firstSeen (ms.map (fun m => m.sender)) := by
  refine ⟨?_, ?_, tally_map_fst ms⟩
  · exact pySortedDesc_aux_pairwise (tally ms) [] (by simp)
  · intro c
    simpa using pySortedDesc_aux_filter c (tally ms) [] (by simp)

/-- C5 witness: senders Anna:3, Ben:3, Chris:1 with Anna first seen before
Ben rank as Anna, Ben, Chris. -/
theorem c5_witness :
    c5Msgs ≠ [] ∧
    (rankedSenders c5Msgs).map Prod.fst = ["Anna", "Ben", "Chris"] ∧
    ((rankedSenders c5Msgs).Pairwise (fun a b => b.2 ≤ a.2) ∧
      (∀ c, (rankedSenders c5Msgs).filter (fun p => p.2 == c) =
        (tally c5Msgs).filter (fun p => p.2 == c)) ∧
      (tally c5Msgs).map Prod.fst = firstSeen (c5Msgs.map (fun m => m.sender))) :=
  ⟨by decide, by decide, c5_ranked_senders c5Msgs (by decide)⟩

/-- C6: in any successfully built story, each plain-text record contributes
its text with `&`, `<`, `>` replaced character-wise by their markup
escapes, and each line of a supplied (non-empty) summary is rendered under
the same escaping rule, a blank line becoming the non-collapsing blank. -/
theorem c6_escaping (ms : List Message) (summ : Option String) (story : List Elem)
    (h : export_pdf ms summ = Except.ok story) :
    (∀ m ∈ ms, m.audio_file = none →
      Elem.para "msg" (charEscape m.text) ∈ story) ∧
    (∀ s, summ = some s → s ≠ "" →
      ∀ line ∈ s.splitOn "\n",
        Elem.para "summary" (if line = "" then "&nbsp;" else charEscape line) ∈ story) := by
  have hstory : ∃ pfx, story = pfx ++ (ms.flatMap msgBlock ++ summarySection summ) := by
    rw [export_pdf] at h
    by_cases hempty : ms.isEmpty
    · rw [if_pos hempty] at h
      injection h with h'
      exact ⟨[Elem.para "title" "WhatsApp Analyse", Elem.spacer 5],
        by rw [← h']; simp [List.append_assoc]⟩
    · rw [if_neg hempty] at h
      rcases h1 : ms.head?.bind (·.datetime) with _ | sdt
      · rw [h1] at h; simp at h
      · rcases h2 : ms.getLast?.bind (·.datetime) with _ | edt
        · rw [h1, h2] at h; simp at h
        · rw [h1, h2] at h
          injection h with h'
          exact ⟨[Elem.para "title" "WhatsApp Analyse",
            Elem.para "meta" (metaStr sdt edt ms.length), Elem.spacer 5],
            by rw [← h']; simp [List.append_assoc]⟩
  obtain ⟨pfx, hst⟩ := hstory
  constructor
  · intro m hm haud
    have h1 : msgContent m = Elem.para "msg" (pyEscape m.text) := by
      simp [msgContent, haud, pyTruthyOpt]
    have hmem : Elem.para "msg" (pyEscape m.text) ∈ ms.flatMap msgBlock := by
      refine List.mem_flatMap.mpr ⟨m, hm, ?_⟩
      rw [← h1]
      simp [msgBlock]
    rw [pyEscape_eq_charEscape] at hmem
    rw [hst]
    exact List.mem_append.mpr (Or.inr (List.mem_append.mpr (Or.inl hmem)))
  · intro s hs hne line hline
    have htruthy : pyTruthyOpt (some s) = true := by
      show pyTruthyStr s = true
      exact (pyTruthyStr_iff s).mpr hne
    have hsec : summarySection summ =
        [Elem.spacer 10, Elem.para "title" "Zusammenfassung"] ++
        (s.splitOn "\n").map (fun ln =>
          Elem.para "summary"
            (if pyTruthyStr (pyEscape ln) then pyEscape ln else "&nbsp;")) := by
      rw [hs]
      simp [summarySection, htruthy]
    have helem : Elem.para "summary"
          (if pyTruthyStr (pyEscape line) then pyEscape line else "&nbsp;") =
        Elem.para "summary" (if line = "" then "&nbsp;" else charEscape line) := by
      by_cases hl : line = ""
      · subst hl; decide
      · have hnempty : pyEscape line ≠ "" :=
          fun hh => hl ((pyEscape_eq_empty_iff line).mp hh)
        have ht : pyTruthyStr (pyEscape line) = true := (pyTruthyStr_iff _).mpr hnempty
        rw [if_pos ht, if_neg hl, pyEscape_eq_charEscape]
    rw [hst]
    refine List.mem_append.mpr (Or.inr (List.mem_append.mpr (Or.inr ?_)))
    rw [hsec]
    refine List.mem_append.mpr (Or.inr ?_)
    rw [← helem]
    exact List.mem_map_of_mem _ hline

/-- C6 witness: a record containing `&`, `<`, `>` and a three-line summary
whose middle line is blank. -/
theorem c6_witness :
    export_pdf c6Msgs (some "x\n\ny") = Except.ok c6Story ∧
    ((∀ m ∈ c6Msgs, m.audio_file = none →
        Elem.para "msg" (charEscape m.text) ∈ c6Story) ∧
      (∀ s, (some "x\n\ny" : Option String) = some s → s ≠ "" →
        ∀ line ∈ s.splitOn "\n",
          Elem.para "summary" (if line = "" then "&nbsp;" else charEscape line) ∈ c6Story)) :=
  ⟨rfl, c6_escaping c6Msgs (some "x\n\ny") c6Story rfl⟩

/-- C9: the filtered sequence of references is a subsequence of the input
references (the very same objects, not copies), and writing a transcript
through a filtered reference updates the store cell that the original
sequence shares, leaving every other cell untouched. -/
theorem c9_shared_identity (store : List Message) (ixs : List Nat)
    (start stop : Date) (senders : Option (List String)) (index : Nat) (txt : String)
    (hval : ∀ i ∈ ixs, i < store.length)
    (hidx : index < (filterIx store ixs start stop senders).length) :
    (filterIx store ixs start stop senders).Sublist ixs ∧
    (filterIx store ixs start stop senders).getD index 0 ∈ ixs ∧
    ((on_transcript store ixs (filterIx store ixs start stop senders) index txt).getD
        ((filterIx store ixs start stop senders).getD index 0) default).transcript =
      some txt ∧
    (∀ j, j ≠ (filterIx store ixs start stop senders).getD index 0 →
      (on_transcript store ixs (filterIx store ixs start stop senders) index txt).getD
        j default = store.getD j default) := by
  have hsub : (filterIx store ixs start stop senders).Sublist ixs :=
    List.filter_sublist ixs
  have hmemf : (filterIx store ixs start stop senders).getD index 0 ∈
      filterIx store ixs start stop senders := getD_mem_nat _ index hidx
  have hmem : (filterIx store ixs start stop senders).getD index 0 ∈ ixs :=
    hsub.subset hmemf
  have hor : (filterIx store ixs start stop senders).getD index 0 < store.length :=
    hval _ hmem
  have hw1 : ((storeWrite store ((filterIx store ixs start stop senders).getD index 0)
      txt).getD ((filterIx store ixs start stop senders).getD index 0) default).transcript =
      some txt := by
    rw [storeWrite_getD_self store _ txt hor]
  have hinv := on_transcript_fold_inv store
    ((filterIx store ixs start stop senders).getD index 0) txt hor ixs
    (storeWrite store ((filterIx store ixs start stop senders).getD index 0) txt)
    hw1
    (fun j hj => storeWrite_getD_ne store _ j txt hj)
    (storeWrite_length store _ txt)
  exact ⟨hsub, hmem, hinv.1, hinv.2⟩

/-- C9 witness: a two-record store, the date filter keeps the first record;
writing its transcript through the filtered view is visible at the shared
cell. -/
theorem c9_witness :
    (∀ i ∈ [0, 1], i < c9Store.length) ∧
    0 < (filterIx c9Store [0, 1] ⟨2020, 1, 1⟩ ⟨2020, 12, 31⟩ none).length ∧
    ((filterIx c9Store [0, 1] ⟨2020, 1, 1⟩ ⟨2020, 12, 31⟩ none).Sublist [0, 1] ∧
      (filterIx c9Store [0, 1] ⟨2020, 1, 1⟩ ⟨2020, 12, 31⟩ none).getD 0 0 ∈ [0, 1] ∧
      ((on_transcript c9Store [0, 1]
          (filterIx c9Store [0, 1] ⟨2020, 1, 1⟩ ⟨2020, 12, 31⟩ none) 0 "hallo").getD
          ((filterIx c9Store [0, 1] ⟨2020, 1, 1⟩ ⟨2020, 12, 31⟩ none).getD 0 0)
          default).transcript = some "hallo" ∧
      (∀ j, j ≠ (filterIx c9Store [0, 1] ⟨2020, 1, 1⟩ ⟨2020, 12, 31⟩ none).getD 0 0 →
        (on_transcript c9Store [0, 1]
          (filterIx c9Store [0, 1] ⟨2020, 1, 1⟩ ⟨2020, 12, 31⟩ none) 0 "hallo").getD
          j default = c9Store.getD j default)) :=
  ⟨by decide, by decide,
    c9_shared_identity c9Store [0, 1] ⟨2020, 1, 1⟩ ⟨2020, 12, 31⟩ none 0 "hallo"
      (by decide) (by decide)⟩

/-- C10: on a non-empty list whose first or last record lacks a timestamp,
both the summarizer and the renderer's leading document header raise
(model: return an error), while the per-record header degrades to the
empty string. -/
theorem c10_endpoint_timestamp (ms : List Message) (h : ms ≠ [])
    (habs : (ms.head h).datetime = none ∨ (ms.getLast h).datetime = none) :
    (∃ e, generate_summary ms = Except.error e) ∧
    (∀ summ, ∃ e, export_pdf ms summ = Except.error e) ∧
    (∀ m : Message, m.datetime = none → msgDtStr m = "") := by
  have hne : ms.isEmpty = false := by simpa [List.isEmpty_iff] using h
  have hbind : ms.head?.bind (·.datetime) = none ∨
      ms.getLast?.bind (·.datetime) = none := by
    rcases habs with h1 | h1
    · left
      rw [List.head?_eq_head h]
      simpa using h1
    · right
      rw [List.getLast?_eq_getLast ms h]
      simpa using h1
  refine ⟨?_, ?_, ?_⟩
  · rcases hh : ms.head?.bind (·.datetime) with _ | sdt
    · exact ⟨"AttributeError: NoneType object has no attribute strftime",
        by simp [generate_summary, hne, hh]⟩
    · rcases hl2 : ms.getLast?.bind (·.datetime) with _ | edt
      · exact ⟨"AttributeError: NoneType object has no attribute strftime",
          by simp [generate_summary, hne, hh, hl2]⟩
      · exfalso
        rcases hbind with h1 | h1
        · rw [hh] at h1; cases h1
        · rw [hl2] at h1; cases h1
  · intro summ
    rcases hh : ms.head?.bind (·.datetime) with _ | sdt
    · exact ⟨"AttributeError: NoneType object has no attribute strftime",
        by simp [export_pdf, hne, hh]⟩
    · rcases hl2 : ms.getLast?.bind (·.datetime) with _ | edt
      · exact ⟨"AttributeError: NoneType object has no attribute strftime",
          by simp [export_pdf, hne, hh, hl2]⟩
      · exfalso
        rcases hbind with h1 | h1
        · rw [hh] at h1; cases h1
        · rw [hl2] at h1; cases h1
  · intro m hm
    simp [msgDtStr, hm]

/-- C10 witness: a singleton list whose only record has no timestamp. -/
theorem c10_witness :
    ([exMsg "A"] : List Message) ≠ [] ∧
    (([exMsg "A"].head (by decide)).datetime = none ∨
      ([exMsg "A"].getLast (by decide)).datetime = none) ∧
    ((∃ e, generate_summary [exMsg "A"] = Except.error e) ∧
      (∀ summ, ∃ e, export_pdf [exMsg "A"] summ = Except.error e) ∧
      (∀ m : Message, m.datetime = none → msgDtStr m = "")) :=
  ⟨by decide, Or.inl (by decide),
    c10_endpoint_timestamp [exMsg "A"] (by decide) (Or.inl (by decide))⟩

end WA
